import Mathlib

/-!
# A shallow embedding of `slots.py` (ColdMacaroni/slot-machine)

Pure fragments of the slot-machine program are translated into Lean
definitions.  Python lists become `List`, integer pixel coordinates that the
program divides by `2` become rationals (`ℚ`), Python `int`s become `Int`
(or `Nat` where the source value is an index/count), and calls that can raise
an uncaught exception return `Option`.  The random draw in `generate_roll`
is factored out: functions that consume freshly rolled symbols take the
rolled grid as a parameter.
-/

/-- A symbol instance: one placed copy of `SlotSymbol` (or of its subclass
`WildSymbol`) from `slots.py`.  The `wild` flag records which of the two
classes the instance belongs to; `sym_id` and `value` are the constructor
parameters used by the scoring logic; `x`, `y`, `width`, `height` are the
mutable geometry fields read and written by the layout code.  The pygame
surface/image/rect plumbing is out of scope and omitted. -/
structure SlotSym where
  wild : Bool
  sym_id : Int
  value : Int
  x : ℚ
  y : ℚ
  width : ℚ
  height : ℚ
  deriving DecidableEq, Repr

/-- Python `a == b` between two symbol instances.  `SlotSymbol.__eq__`
compares `sym_id` against any `SlotSymbol`; `WildSymbol.__eq__` compares
`sym_id` against another `WildSymbol` and returns `True` against any plain
`SlotSymbol`.  When the right operand's type is a proper subclass of the left
operand's type and overrides `__eq__`, Python dispatches to the right
operand's method first, so an ordinary symbol compared with a wildcard (in
either operand order) always lands in `WildSymbol.__eq__` and yields `True`:

* both ordinary        → `SlotSymbol.__eq__`: `sym_id` equality;
* left wild, right not → `WildSymbol.__eq__` (left): `True`;
* left not, right wild → reflected dispatch to `WildSymbol.__eq__` (right),
  where the other operand is a plain `SlotSymbol`: `True`;
* both wild            → `WildSymbol.__eq__`: `sym_id` equality. -/
def pyEq (a b : SlotSym) : Bool :=
  match a.wild, b.wild with
  | true, true => a.sym_id == b.sym_id
  | true, false => true
  | false, true => true
  | false, false => a.sym_id == b.sym_id

/-- Embeds `generate_values(amount, wild_val, default_val, max_val, big_vals)`.
Clamps `big_vals` down to `amount`, emits the big values
`max_val - wild_val * i`, pads with `default_val` up to `amount` entries,
and raises `ValueError` (here: `none`) when the produced count differs from
`amount`.  Python `range` of a negative number is empty, hence `Int.toNat`. -/
def generate_values (amount : Nat) (wild_val default_val max_val big_vals : Int) :
    Option (Int × List Int) :=
  let bv : Int := if big_vals > (amount : Int) then (amount : Int) else big_vals
  let bigs := (List.range bv.toNat).map (fun i : Nat => max_val - wild_val * (i : Int))
  let values := bigs ++ (List.range (amount - bigs.length)).map (fun _ => default_val)
  if values.length ≠ amount then none else some (wild_val, values)

/-- Embeds `update_slots(slots, new_slots)`: per column, prepend the new rolls to the
existing column (`slots[column] = new_slots[column] + slots[column]`). -/
def update_slots (slots new_slots : List (List SlotSym)) : List (List SlotSym) :=
  (List.range slots.length).map (fun column => new_slots.getD column [] ++ slots.getD column [])

/-- Embeds `del_out_of_bounds(slots, lower_bound)`: rebuild the grid keeping, per
column, the instances whose `y` does not exceed `lower_bound`.  The source
accumulates into fresh lists with `append`, which the two `foldl`s mirror. -/
def del_out_of_bounds (slots : List (List SlotSym)) (lower_bound : ℚ) : List (List SlotSym) :=
  slots.foldl (fun new_slots column =>
    new_slots ++ [column.foldl (fun new_column s =>
      if ¬ s.y > lower_bound then new_column ++ [s] else new_column) []]) []

/-- Embeds `screen_size()` from `slots.py`: the fixed 600×600 canvas. -/
def screen_size : ℚ × ℚ := (600, 600)

/-- Embeds `for i, a in enumerate(l, start)`-style indexed map, used to embed the
`for column in range(len(slots))` loops of `position_slots`. -/
def mapWithIdx (f : Nat → α → β) : Nat → List α → List β
  | _, [] => []
  | i, a :: as => f i a :: mapWithIdx f (i + 1) as

/-- Embeds `position_slots(slots, rows, slot_size, offset)`.  First pass: each
instance's position is set from its (column, row) index and its own
width/height.  Second pass: every instance of a column is translated by the
centering offsets, where the vertical offset compensates for the column's
current length.  The Python function mutates `slots`; here the updated grid
is returned.  (The optional whitespace return value is not modelled; it is
`(horizontal_whitespace_width, vertical_whitespace_width)` computed below.) -/
def position_slots (slots : List (List SlotSym)) (rows : Nat) (slot_size : ℚ × ℚ)
    (offset : ℚ) : List (List SlotSym) :=
  let grid_width := slot_size.1 * (slots.length : ℚ) + ((slots.length : ℚ) - 1) * offset
  let grid_height := slot_size.2 * (rows : ℚ) + ((rows : ℚ) - 1) * offset
  let x_offset := screen_size.1 / 2 - grid_width / 2
  let y_offset := (screen_size.2 / 2 - grid_height / 2) + grid_height
  let pass1 := mapWithIdx (fun column col =>
    mapWithIdx (fun symbol s =>
      { s with x := (column : ℚ) * (s.width + offset),
               y := (symbol : ℚ) * (s.height + offset) }) 0 col) 0 slots
  pass1.map (fun col =>
    let num_rows := col.length
    let total_column_height := (num_rows : ℚ) * slot_size.2 + ((num_rows : ℚ) - 1) * offset
    let final_y_offset := -total_column_height + y_offset
    col.map (fun s => { s with x := s.x + x_offset, y := s.y + final_y_offset }))

/-- Embeds `add_xy(xy1, xy2)`: componentwise sum of two coordinate pairs. -/
def add_xy (xy1 xy2 : Int × Int) : Int × Int := (xy1.1 + xy2.1, xy1.2 + xy2.2)

/-- Embeds `shift_points(points, shift)`: shift each point by the `(x, y)` given. -/
def shift_points (points : List (Int × Int)) (shift : Int × Int) : List (Int × Int) :=
  points.map (fun point => add_xy point shift)

/-- Embeds `horizontal_line(columns)`: points along the x axis at `y = 0`. -/
def horizontal_line (columns : Nat) : List (Int × Int) :=
  (List.range columns).map (fun x : Nat => ((x : Int), 0))

/-- Embeds `triangle_line(columns)`: ascend 1-by-1 to a peak (a 2-wide peak when
`columns` is even), then descend reading the y values back off the ascending
half.  `line[-1]` and `line[rest - x - 1]` are in bounds in every reachable
call, so `getD` with a dummy default is a faithful rendering. -/
def triangle_line (columns : Nat) : List (Int × Int) :=
  let up := (List.range ((columns - (if columns % 2 = 0 then 1 else 0)) / 2 + 1)).map
    (fun i : Nat => ((i : Int), (i : Int)))
  let line1 := if columns % 2 = 0 then
      up ++ [((up.getD (up.length - 1) (0, 0)).1 + 1, (up.getD (up.length - 1) (0, 0)).2)]
    else up
  let rest := columns - line1.length
  let start := line1.length
  let down := (List.range rest).map
    (fun x => (((start + x : Nat) : Int), (line1.getD (rest - x - 1) (0, 0)).2))
  line1 ++ down

/-- Embeds `dip_line(columns)`: `y = 1` at both ends, `y = 0` in between. -/
def dip_line (columns : Nat) : List (Int × Int) :=
  let line : List (Int × Int) := [(0, 1)]
  if columns = 1 then line
  else
    let line := if columns > 2 then
        line ++ (List.range' 1 (columns - 2)).map (fun x : Nat => ((x : Int), 0))
      else line
    line ++ [(((columns : Int) - 1), 1)]

/-- Embeds `saw_line(columns)`: `y = x mod 2`. -/
def saw_line (columns : Nat) : List (Int × Int) :=
  (List.range columns).map (fun x : Nat => ((x : Int), (x : Int) % 2))

/-- Embeds `middle_peak_line(columns)`: `y = 1` exactly at the middle index
(two middle indices when `columns` is even), `y = 0` elsewhere. -/
def middle_peak_line (columns : Nat) : List (Int × Int) :=
  let mid : List Nat := if columns % 2 = 0 then [columns / 2, columns / 2 - 1] else [columns / 2]
  (List.range columns).map (fun x : Nat => if x ∈ mid then ((x : Int), 1) else ((x : Int), 0))

/-- Embeds `max([point[1] for point in line])` from `flip_line`.  Python `max`
raises on an empty sequence; every line the program flips is non-empty, and
the `0` returned for `[]` here is never relied upon. -/
def line_max_y : List (Int × Int) → Int
  | [] => 0
  | p :: ps => ps.foldl (fun acc q => max acc q.2) p.2

/-- Embeds `flip_line(line)`: reflect vertically inside the line's own occupied
height, `y' = -y + max_y`. -/
def flip_line (line : List (Int × Int)) : List (Int × Int) :=
  line.map (fun point => (point.1, point.2 * (-1) + line_max_y line))

/-- Embeds `all_horizontal_lines(rows, columns)`: one horizontal per row, wrapped in
a singleton list (one orientation) for compatibility with the other pairs. -/
def all_horizontal_lines (rows columns : Nat) : List (List (List (Int × Int))) :=
  [(List.range rows).map (fun y : Nat => shift_points (horizontal_line columns) (0, (y : Int)))]

/-- Embeds `triangle[len(triangle) // 2][1]`: the y value the shift count of
`all_triangle_lines` is computed from. -/
def trianglePeak (columns : Nat) : Int :=
  ((triangle_line columns).getD ((triangle_line columns).length / 2) (0, 0)).2

/-- Embeds `all_triangle_lines(rows, columns)`: the triangle and its flip, shifted
`rows - peak` times (none when that count is not positive, matching Python's
empty `range` of a negative number). -/
def all_triangle_lines (rows columns : Nat) :
    List (List (Int × Int)) × List (List (Int × Int)) :=
  let triangle := triangle_line columns
  let flip_triangle := flip_line triangle
  let shifts : Int := (rows : Int) - trianglePeak columns
  ((List.range shifts.toNat).map (fun y : Nat => shift_points triangle (0, (y : Int))),
   (List.range shifts.toNat).map (fun y : Nat => shift_points flip_triangle (0, (y : Int))))

/-- Embeds `all_dip_lines(rows, columns)`: the dip and its flip, shifted `rows - 1`
times. -/
def all_dip_lines (rows columns : Nat) :
    List (List (Int × Int)) × List (List (Int × Int)) :=
  let dip := dip_line columns
  let flip_dip := flip_line dip
  ((List.range (rows - 1)).map (fun y : Nat => shift_points dip (0, (y : Int))),
   (List.range (rows - 1)).map (fun y : Nat => shift_points flip_dip (0, (y : Int))))

/-- Embeds `all_saw_lines(rows, columns)`: the saw and its flip, shifted `rows - 1`
times. -/
def all_saw_lines (rows columns : Nat) :
    List (List (Int × Int)) × List (List (Int × Int)) :=
  let saw := saw_line columns
  let flip_saw := flip_line saw
  ((List.range (rows - 1)).map (fun y : Nat => shift_points saw (0, (y : Int))),
   (List.range (rows - 1)).map (fun y : Nat => shift_points flip_saw (0, (y : Int))))

/-- Embeds `all_middle_peak_lines(rows, columns)`: the middle peak and its flip,
shifted `rows - 1` times. -/
def all_middle_peak_lines (rows columns : Nat) :
    List (List (Int × Int)) × List (List (Int × Int)) :=
  let middle_peak := middle_peak_line columns
  let flip_middle_peak := flip_line middle_peak
  ((List.range (rows - 1)).map (fun y : Nat => shift_points middle_peak (0, (y : Int))),
   (List.range (rows - 1)).map (fun y : Nat => shift_points flip_middle_peak (0, (y : Int))))

/-- Embeds `generate_lines(rows, columns)`: the five families, each as a list of
orientations, each orientation a list of shifted lines.  The Python 5-tuple
(whose entries are then sliced with `lines[:selected_lines]`) is modelled as
a 5-element list. -/
def generate_lines (rows columns : Nat) : List (List (List (List (Int × Int)))) :=
  let t := all_triangle_lines rows columns
  let d := all_dip_lines rows columns
  let s := all_saw_lines rows columns
  let m := all_middle_peak_lines rows columns
  [all_horizontal_lines rows columns, [t.1, t.2], [d.1, d.2], [s.1, s.2], [m.1, m.2]]

/-- Embeds `max([len(sub_ls) for sub_ls in ls])` from `flip_2d`: Python `max` over
the non-empty list of lengths (the `[]` case raises `ValueError` in Python
and is handled separately by `flip_2d`). -/
def biggestLen : List (List α) → Nat
  | [] => 0
  | h :: t => (t.map List.length).foldl max h.length

/-- Embeds `flip_2d(ls)`: `new_ls` starts as `len(ls)` empty rows; rows
`0 .. biggest-1` are then filled with `ls[sub_list][item]` (or `None` for a
too-short column, via the `try/except IndexError`), and any leftover rows
stay empty.  Two failure modes return `none`: `ls = []` (Python `max([])`
raises `ValueError`) and `biggest > len(ls)` (the write target
`new_ls[item]` raises `IndexError`, which the `except` clause re-raises by
performing the same out-of-range access). -/
def flip_2d (ls : List (List α)) : Option (List (List (Option α))) :=
  match ls with
  | [] => none
  | _ :: _ =>
    if ls.length < biggestLen ls then none
    else some (((List.range (biggestLen ls)).map (fun item =>
        (List.range ls.length).map (fun sub_list => (ls.getD sub_list [])[item]?))) ++
      (List.range (ls.length - biggestLen ls)).map (fun _ => []))

/-- Embeds `get_values(ls, positions)`: read `ls[pos[1]][pos[0]]` for each position.
Out-of-range reads would raise in Python; the program only calls this with
in-range payline coordinates, where `getD` agrees. -/
def get_values (ls : List (List SlotSym)) (positions : List (Int × Int)) : List SlotSym :=
  positions.map (fun pos => (ls.getD pos.2.toNat []).getD pos.1.toNat
    { wild := false, sym_id := 0, value := 0, x := 0, y := 0, width := 0, height := 0 })

/-- Embeds `symbols_equal(ls)`: pick the first non-wild symbol as anchor (falling
back to `ls[0]`, which raises `IndexError` — here `none` — when `ls` is
empty), count how many leading symbols compare equal to it, and return that
prefix of `ls`. -/
def symbols_equal (ls : List SlotSym) : Option (List SlotSym) :=
  match ls.find? (fun s => !s.wild) with
  | some first => some (ls.take (ls.takeWhile (fun s => pyEq s first)).length)
  | none =>
    match ls with
    | [] => none
    | a :: _ => some (ls.take (ls.takeWhile (fun s => pyEq s a)).length)

/-- Embeds `calculate_value(slots, multiplier)`: total symbol value times the
multiplier (the program always uses the default multiplier `1`). -/
def calculate_value (slots : List SlotSym) (multiplier : Int) : Int :=
  (slots.map (fun slot => slot.value)).sum * multiplier

/-- Embeds `calculate_score_logic(symbols)`: run `symbols_equal`, score the run when
it has at least 3 symbols, and also return `symbols[:len(equal_slots)]`. -/
def calculate_score_logic (symbols : List SlotSym) : Option (Int × List SlotSym) :=
  (symbols_equal symbols).map (fun equal_slots =>
    ((if equal_slots.length ≥ 3 then calculate_value equal_slots 1 else 0),
     symbols.take equal_slots.length))

/-- The `costs` table of `main()`: cost per selected line count. -/
def costs (lines : Nat) : Int :=
  if lines = 1 then 4 else if lines = 2 then 8 else if lines = 3 then 14
  else if lines = 4 then 20 else if lines = 5 then 26 else 0

/-- Embeds `ROWS` in `main()`. -/
def ROWS : Nat := 4

/-- Embeds `COLUMNS` in `main()`. -/
def COLUMNS : Nat := 5

/-- Embeds `SYMBOL_SIZE` in `main()` (px). -/
def SYMBOL_SIZE : ℚ × ℚ := (100, 100)

/-- Embeds `SYMBOL_OFFSET` in `main()` (px). -/
def SYMBOL_OFFSET : ℚ := 10

/-- The `K_SPACE` handler of `main()`, reached only while `status == 0`
(Idle).  It deducts the cost when the balance suffices, then — conditionally
on nothing — generates fresh rolls (passed in here as `new_rolls`, replacing
the random draw of `generate_roll`), prepends them with `update_slots`,
re-positions the grid, and sets `status` to `1` (Rolling).  Returns the new
`(total_score, status, rolls)`. -/
def spin_step (total_score : Int) (cost : Int) (rolls new_rolls : List (List SlotSym)) :
    Int × Nat × List (List SlotSym) :=
  let total_score := if total_score ≥ cost then total_score - cost else total_score
  let rolls := position_slots (update_slots rolls new_rolls) ROWS SYMBOL_SIZE SYMBOL_OFFSET
  (total_score, 1, rolls)

/-- Minimum of the y values of a line (not a source function; used to state
what `flip_line ∘ flip_line` actually computes). -/
def line_min_y : List (Int × Int) → Int
  | [] => 0
  | p :: ps => ps.foldl (fun acc q => min acc q.2) p.2

/-- A concrete ordinary symbol (id 0), for witnesses. -/
def symA : SlotSym :=
  { wild := false, sym_id := 0, value := 8, x := 0, y := 0, width := 100, height := 100 }

/-- A concrete ordinary symbol (id 1), for witnesses. -/
def symB : SlotSym :=
  { wild := false, sym_id := 1, value := 8, x := 0, y := 0, width := 100, height := 100 }

/-- A concrete wildcard symbol (id -1), for witnesses. -/
def symW : SlotSym :=
  { wild := true, sym_id := -1, value := 5, x := 0, y := 0, width := 100, height := 100 }

/-! ## General list helpers -/

theorem getD_range_map {α : Type _} (f : Nat → α) {k i : Nat} (d : α) (h : i < k) :
    ((List.range k).map f).getD i d = f i := by
  simp [List.getD_eq_getElem?_getD, List.getElem?_map, List.getElem?_range h]

theorem getD_append_left {α : Type _} (l l' : List α) (i : Nat) (d : α) (h : i < l.length) :
    (l ++ l').getD i d = l.getD i d := by
  simp [List.getD_eq_getElem?_getD, List.getElem?_append_left h]

theorem getD_append_right {α : Type _} (l l' : List α) (i : Nat) (d : α) (h : l.length ≤ i) :
    (l ++ l').getD i d = l'.getD (i - l.length) d := by
  simp [List.getD_eq_getElem?_getD, List.getElem?_append_right h]

theorem foldl_push_eq_map {α β : Type _} (f : α → β) :
    ∀ (l : List α) (init : List β),
      l.foldl (fun acc a => acc ++ [f a]) init = init ++ l.map f := by
  intro l
  induction l with
  | nil => simp
  | cons a t ih => intro init; simp [List.foldl_cons, ih]

theorem foldl_ite_push {α : Type _} (p : α → Prop) [DecidablePred p] :
    ∀ (l : List α) (init : List α),
      l.foldl (fun acc a => if p a then acc ++ [a] else acc) init =
        init ++ l.filter (fun a => decide (p a)) := by
  intro l
  induction l with
  | nil => simp
  | cons a t ih =>
    intro init
    by_cases h : p a <;> simp [List.foldl_cons, h, ih, List.filter_cons]

/-! ## `foldl max` / `foldl min` facts, specialised to y-coordinates -/

theorem le_foldl_max (f : α → Int) :
    ∀ (l : List α) (a : Int), a ≤ l.foldl (fun acc x => max acc (f x)) a := by
  intro l
  induction l with
  | nil => simp
  | cons x t ih =>
    intro a
    exact le_trans (le_max_left a (f x)) (ih (max a (f x)))

theorem mem_le_foldl_max (f : α → Int) :
    ∀ (l : List α) (a : Int) (x : α), x ∈ l → f x ≤ l.foldl (fun acc y => max acc (f y)) a := by
  intro l
  induction l with
  | nil => intro a x hx; cases hx
  | cons z t ih =>
    intro a x hx
    rcases List.mem_cons.mp hx with rfl | hx
    · exact le_trans (le_max_right a (f x)) (le_foldl_max f t (max a (f x)))
    · exact ih (max a (f z)) x hx

theorem foldl_max_le (f : α → Int) :
    ∀ (l : List α) (a c : Int), a ≤ c → (∀ x ∈ l, f x ≤ c) →
      l.foldl (fun acc y => max acc (f y)) a ≤ c := by
  intro l
  induction l with
  | nil => intro a c h _; simpa using h
  | cons z t ih =>
    intro a c h hall
    exact ih (max a (f z)) c (max_le h (hall z (List.mem_cons_self z t)))
      (fun x hx => hall x (List.mem_cons_of_mem z hx))

theorem foldl_max_eq_or (f : α → Int) :
    ∀ (l : List α) (a : Int),
      l.foldl (fun acc y => max acc (f y)) a = a ∨
      ∃ x ∈ l, l.foldl (fun acc y => max acc (f y)) a = f x := by
  intro l
  induction l with
  | nil => intro a; left; rfl
  | cons z t ih =>
    intro a
    rcases ih (max a (f z)) with h | ⟨x, hx, h⟩
    · rcases max_choice a (f z) with hm | hm
      · left; simpa [List.foldl_cons, hm] using h
      · right; exact ⟨z, List.mem_cons_self z t, by simpa [List.foldl_cons, hm] using h⟩
    · right; exact ⟨x, List.mem_cons_of_mem z hx, by simpa [List.foldl_cons] using h⟩

theorem foldl_min_le_init (f : α → Int) :
    ∀ (l : List α) (a : Int), l.foldl (fun acc x => min acc (f x)) a ≤ a := by
  intro l
  induction l with
  | nil => simp
  | cons x t ih =>
    intro a
    exact le_trans (ih (min a (f x))) (min_le_left a (f x))

theorem foldl_min_le_mem (f : α → Int) :
    ∀ (l : List α) (a : Int) (x : α), x ∈ l → l.foldl (fun acc y => min acc (f y)) a ≤ f x := by
  intro l
  induction l with
  | nil => intro a x hx; cases hx
  | cons z t ih =>
    intro a x hx
    rcases List.mem_cons.mp hx with rfl | hx
    · exact le_trans (foldl_min_le_init f t (min a (f x))) (min_le_right a (f x))
    · exact ih (min a (f z)) x hx

theorem foldl_min_eq_or (f : α → Int) :
    ∀ (l : List α) (a : Int),
      l.foldl (fun acc y => min acc (f y)) a = a ∨
      ∃ x ∈ l, l.foldl (fun acc y => min acc (f y)) a = f x := by
  intro l
  induction l with
  | nil => intro a; left; rfl
  | cons z t ih =>
    intro a
    rcases ih (min a (f z)) with h | ⟨x, hx, h⟩
    · rcases min_choice a (f z) with hm | hm
      · left; simpa [List.foldl_cons, hm] using h
      · right; exact ⟨z, List.mem_cons_self z t, by simpa [List.foldl_cons, hm] using h⟩
    · right; exact ⟨x, List.mem_cons_of_mem z hx, by simpa [List.foldl_cons] using h⟩

theorem le_line_max_y {line : List (Int × Int)} {p : Int × Int} (hp : p ∈ line) :
    p.2 ≤ line_max_y line := by
  cases line with
  | nil => cases hp
  | cons q ps =>
    rcases List.mem_cons.mp hp with rfl | hp
    · exact le_foldl_max Prod.snd ps p.2
    · exact mem_le_foldl_max Prod.snd ps q.2 p hp

theorem line_max_y_le {line : List (Int × Int)} {c : Int} (hne : line ≠ [])
    (h : ∀ p ∈ line, p.2 ≤ c) : line_max_y line ≤ c := by
  cases line with
  | nil => exact absurd rfl hne
  | cons q ps =>
    exact foldl_max_le Prod.snd ps q.2 c (h q (List.mem_cons_self q ps))
      (fun x hx => h x (List.mem_cons_of_mem q hx))

theorem line_max_y_mem {line : List (Int × Int)} (hne : line ≠ []) :
    ∃ p ∈ line, line_max_y line = p.2 := by
  cases line with
  | nil => exact absurd rfl hne
  | cons q ps =>
    rcases foldl_max_eq_or Prod.snd ps q.2 with h | ⟨x, hx, h⟩
    · exact ⟨q, List.mem_cons_self q ps, h⟩
    · exact ⟨x, List.mem_cons_of_mem q hx, h⟩

theorem line_min_y_le {line : List (Int × Int)} {p : Int × Int} (hp : p ∈ line) :
    line_min_y line ≤ p.2 := by
  cases line with
  | nil => cases hp
  | cons q ps =>
    rcases List.mem_cons.mp hp with rfl | hp
    · exact foldl_min_le_init Prod.snd ps p.2
    · exact foldl_min_le_mem Prod.snd ps q.2 p hp

theorem line_min_y_mem {line : List (Int × Int)} (hne : line ≠ []) :
    ∃ p ∈ line, line_min_y line = p.2 := by
  cases line with
  | nil => exact absurd rfl hne
  | cons q ps =>
    rcases foldl_min_eq_or Prod.snd ps q.2 with h | ⟨x, hx, h⟩
    · exact ⟨q, List.mem_cons_self q ps, h⟩
    · exact ⟨x, List.mem_cons_of_mem q hx, h⟩

/-! ## Symbol equality facts -/

theorem pyEq_refl (a : SlotSym) : pyEq a a = true := by
  unfold pyEq
  cases a.wild <;> simp

/-- C2: two symbol instances compare equal under Python's `==` exactly when
both are ordinary with the same id, or exactly one of the two is a wildcard
(in either operand position), or both are wildcards with the same id — so
two distinct wildcards do not match. -/
theorem symbol_eq_characterization (a b : SlotSym) :
    pyEq a b = true ↔
      (a.wild = false ∧ b.wild = false ∧ a.sym_id = b.sym_id) ∨
      a.wild ≠ b.wild ∨
      (a.wild = true ∧ b.wild = true ∧ a.sym_id = b.sym_id) := by
  unfold pyEq
  cases ha : a.wild <;> cases hb : b.wild <;> simp [ha, hb]

/-- C5: for every `amount` and any parameter values, `generate_values`
returns `wild_val` paired with exactly `amount` values: the first
`min(big_vals, amount)` are `max_val - wild_val * i`, the rest all equal
`default_val`; the internal count-mismatch `ValueError` is never raised. -/
theorem generate_values_spec (amount : Nat) (wild_val default_val max_val big_vals : Int) :
    ∃ values : List Int,
      generate_values amount wild_val default_val max_val big_vals = some (wild_val, values) ∧
      values.length = amount ∧
      (∀ i : Nat, i < (min big_vals (amount : Int)).toNat →
        values.getD i 0 = max_val - wild_val * (i : Int)) ∧
      (∀ i : Nat, (min big_vals (amount : Int)).toNat ≤ i → i < amount →
        values.getD i 0 = default_val) := by
  have hmin : (if big_vals > (amount : Int) then (amount : Int) else big_vals) =
      min big_vals (amount : Int) := by
    rcases le_or_lt big_vals (amount : Int) with h | h
    · rw [if_neg (not_lt.mpr h), min_eq_left h]
    · rw [if_pos h, min_eq_right h.le]
  have htle : (min big_vals (amount : Int)).toNat ≤ amount := by
    have h := min_le_right big_vals (amount : Int)
    omega
  refine ⟨(List.range (min big_vals (amount : Int)).toNat).map
      (fun i : Nat => max_val - wild_val * (i : Int)) ++
    (List.range (amount - (min big_vals (amount : Int)).toNat)).map
      (fun _ : Nat => default_val),
    ?_, ?_, ?_, ?_⟩
  · simp only [generate_values, hmin, List.length_append, List.length_map, List.length_range]
    have hsum : (min big_vals (amount : Int)).toNat +
        (amount - (min big_vals (amount : Int)).toNat) = amount := by omega
    rw [hsum]
    simp
  · simp only [List.length_append, List.length_map, List.length_range]
    omega
  · intro i hi
    rw [getD_append_left _ _ _ _ (by simpa using hi)]
    exact getD_range_map _ _ hi
  · intro i h1 h2
    rw [getD_append_right _ _ _ _ (by simpa using h1)]
    have hlt : i - (min big_vals (amount : Int)).toNat <
        amount - (min big_vals (amount : Int)).toNat := by omega
    simpa using getD_range_map (fun _ : Nat => default_val) (0 : Int) hlt

/-- C8: `del_out_of_bounds` rebuilds the grid so that each column holds
exactly the instances whose y-coordinate does not exceed the bound, in their
original relative order (the result is, column by column, the filtered
original column — a fresh list, not an in-place mutation). -/
theorem del_out_of_bounds_spec (slots : List (List SlotSym)) (lb : ℚ) :
    del_out_of_bounds slots lb =
      slots.map (fun column => column.filter (fun s => decide (s.y ≤ lb))) ∧
    ∀ i : Nat,
      List.Sublist ((del_out_of_bounds slots lb).getD i []) (slots.getD i []) ∧
      ∀ s : SlotSym, s ∈ (del_out_of_bounds slots lb).getD i [] ↔
        s ∈ slots.getD i [] ∧ s.y ≤ lb := by
  have hmain : del_out_of_bounds slots lb =
      slots.map (fun column => column.filter (fun s => decide (s.y ≤ lb))) := by
    unfold del_out_of_bounds
    rw [foldl_push_eq_map
      (fun column : List SlotSym =>
        column.foldl (fun nc s => if ¬ s.y > lb then nc ++ [s] else nc) [])]
    rw [List.nil_append]
    apply List.map_congr_left
    intro column _
    rw [foldl_ite_push (fun s : SlotSym => ¬ s.y > lb) column [], List.nil_append]
    apply List.filter_congr
    intro s _
    simp [not_lt]
  constructor
  · exact hmain
  · intro i
    have hget : (del_out_of_bounds slots lb).getD i [] =
        (slots.getD i []).filter (fun s => decide (s.y ≤ lb)) := by
      rw [hmain]
      simp only [List.getD_eq_getElem?_getD, List.getElem?_map]
      cases h : slots[i]? <;> simp
    rw [hget]
    exact ⟨List.filter_sublist _, fun s => by simp⟩

theorem length_takeWhile_le' {α : Type _} (p : α → Bool) (l : List α) :
    (l.takeWhile p).length ≤ l.length := by
  have h := congrArg List.length (List.takeWhile_append_dropWhile p l)
  simp only [List.length_append] at h
  omega

/-- C9: on a non-empty list `symbols_equal` succeeds and returns a non-empty
prefix `ls.take k` with `1 ≤ k ≤ len ls` (the anchor — the first non-wildcard
instance, or position 0 when all are wildcards — matches the head of the
list); on the empty list the `ls[0]` fallback raises `IndexError`. -/
theorem symbols_equal_front_run (ls : List SlotSym) :
    (ls = [] → symbols_equal ls = none) ∧
    (ls ≠ [] → ∃ k : Nat, 1 ≤ k ∧ k ≤ ls.length ∧ symbols_equal ls = some (ls.take k)) := by
  constructor
  · rintro rfl
    rfl
  · intro hne
    obtain ⟨a, rest, rfl⟩ := List.exists_cons_of_ne_nil hne
    cases hf : (a :: rest).find? (fun s => !s.wild) with
    | none =>
      have ha : pyEq a a = true := pyEq_refl a
      refine ⟨((a :: rest).takeWhile (fun s => pyEq s a)).length, ?_, ?_, ?_⟩
      · simp only [List.takeWhile_cons]
        rw [ha]
        simp
      · exact length_takeWhile_le' _ _
      · simp [symbols_equal, hf]
    | some f =>
      have hfa : pyEq a f = true := by
        by_cases hw : a.wild
        · have hford := List.find?_some hf
          unfold pyEq
          rw [hw]
          simp only [Bool.not_eq_true'] at hford
          rw [hford]
        · have hfind : (a :: rest).find? (fun s => !s.wild) = some a :=
            List.find?_cons_of_pos rest (by simp [hw])
          rw [hfind] at hf
          injection hf with hf
          rw [← hf]
          exact pyEq_refl a
      refine ⟨((a :: rest).takeWhile (fun s => pyEq s f)).length, ?_, ?_, ?_⟩
      · simp only [List.takeWhile_cons]
        rw [hfa]
        simp
      · exact length_takeWhile_le' _ _
      · simp [symbols_equal, hf]

/-- C9 witness: concrete instances of both halves — the empty list fails,
and `[symA]` yields a prefix `ls.take k` with `1 ≤ k ≤ 1`. -/
theorem symbols_equal_front_run_w :
    symbols_equal [] = none ∧
    ∃ k : Nat, 1 ≤ k ∧ k ≤ [symA].length ∧ symbols_equal [symA] = some ([symA].take k) :=
  ⟨(symbols_equal_front_run []).1 rfl,
   (symbols_equal_front_run [symA]).2 (by simp)⟩

/-- C6: the payline `[A, A, Wild, B, A]` with distinct ordinary `A`, `B` and
a wildcard yields the run `[A, A, Wild]` of length 3 from `symbols_equal`,
and since `3 ≥ 3` the line scores: `calculate_score_logic` returns the run's
summed value (at multiplier 1) together with that 3-symbol run. -/
theorem wildcard_run_of_three_scores (A B W A2 : SlotSym) (hA : A.wild = false)
    (hB : B.wild = false) (hW : W.wild = true) (hAB : A.sym_id ≠ B.sym_id) :
    symbols_equal [A, A, W, B, A2] = some [A, A, W] ∧
    calculate_score_logic [A, A, W, B, A2] =
      some (A.value + A.value + W.value, [A, A, W]) := by
  have h1 : pyEq A A = true := pyEq_refl A
  have h2 : pyEq W A = true := by
    unfold pyEq
    rw [hW, hA]
  have h3 : pyEq B A = false := by
    unfold pyEq
    rw [hB, hA]
    simpa using (Ne.symm hAB)
  have hfind : [A, A, W, B, A2].find? (fun s => !s.wild) = some A :=
    List.find?_cons_of_pos _ (by simp [hA])
  have hrun : symbols_equal [A, A, W, B, A2] = some [A, A, W] := by
    simp [symbols_equal, hfind, List.takeWhile_cons, h1, h2, h3]
  refine ⟨hrun, ?_⟩
  simp [calculate_score_logic, hrun, calculate_value]
  ring

/-- C6 witness: the scenario at the concrete symbols `symA`, `symB`, `symW`
(ids 0, 1, -1; values 8, 8, 5). -/
theorem wildcard_run_of_three_scores_w :
    symbols_equal [symA, symA, symW, symB, symA] = some [symA, symA, symW] ∧
    calculate_score_logic [symA, symA, symW, symB, symA] =
      some (symA.value + symA.value + symW.value, [symA, symA, symW]) :=
  wildcard_run_of_three_scores symA symB symW symA rfl rfl rfl (by decide)

/-! ## `mapWithIdx` facts and layout idempotence -/

theorem mapWithIdx_length (f : Nat → α → β) :
    ∀ (i : Nat) (l : List α), (mapWithIdx f i l).length = l.length := by
  intro i l
  induction l generalizing i with
  | nil => rfl
  | cons a t ih => simp [mapWithIdx, ih]

theorem map_mapWithIdx (g : β → γ) (f : Nat → α → β) :
    ∀ (i : Nat) (l : List α),
      (mapWithIdx f i l).map g = mapWithIdx (fun j a => g (f j a)) i l := by
  intro i l
  induction l generalizing i with
  | nil => rfl
  | cons a t ih => simp [mapWithIdx, ih]

theorem mapWithIdx_mapWithIdx (f g : Nat → α → α) :
    ∀ (i : Nat) (l : List α),
      mapWithIdx f i (mapWithIdx g i l) = mapWithIdx (fun j a => f j (g j a)) i l := by
  intro i l
  induction l generalizing i with
  | nil => rfl
  | cons a t ih => simp [mapWithIdx, ih]

theorem mapWithIdx_congr (f g : Nat → α → β) (h : ∀ j a, f j a = g j a) :
    ∀ (i : Nat) (l : List α), mapWithIdx f i l = mapWithIdx g i l := by
  intro i l
  induction l generalizing i with
  | nil => rfl
  | cons a t ih => simp [mapWithIdx, h, ih]

theorem position_slots_eq (slots : List (List SlotSym)) (rows : Nat) (sz : ℚ × ℚ) (off : ℚ) :
    position_slots slots rows sz off = mapWithIdx (fun column col =>
      mapWithIdx (fun symbol s =>
        { s with
          x := (column : ℚ) * (s.width + off) +
            (screen_size.1 / 2 -
              (sz.1 * (slots.length : ℚ) + ((slots.length : ℚ) - 1) * off) / 2),
          y := (symbol : ℚ) * (s.height + off) +
            (-((col.length : ℚ) * sz.2 + ((col.length : ℚ) - 1) * off) +
              ((screen_size.2 / 2 -
                  (sz.2 * (rows : ℚ) + ((rows : ℚ) - 1) * off) / 2) +
                (sz.2 * (rows : ℚ) + ((rows : ℚ) - 1) * off))) }) 0 col) 0 slots := by
  unfold position_slots
  rw [map_mapWithIdx]
  apply mapWithIdx_congr
  intro c col
  rw [mapWithIdx_length]
  rw [map_mapWithIdx]

theorem position_slots_idem_aux (slots : List (List SlotSym)) (rows : Nat)
    (sz : ℚ × ℚ) (off : ℚ) :
    position_slots (position_slots slots rows sz off) rows sz off =
      position_slots slots rows sz off := by
  rw [position_slots_eq slots rows sz off, position_slots_eq _ rows sz off,
    mapWithIdx_length, mapWithIdx_mapWithIdx]
  apply mapWithIdx_congr
  intro c col
  rw [mapWithIdx_length, mapWithIdx_mapWithIdx]

/-- C7: on a fully settled grid (every column already holds exactly the
target row count), running `position_slots` a second time with identical
arguments leaves every instance exactly where the first call put it. -/
theorem position_slots_idempotent (slots : List (List SlotSym)) (rows : Nat)
    (slot_size : ℚ × ℚ) (offset : ℚ) (_hset : ∀ col ∈ slots, col.length = rows) :
    position_slots (position_slots slots rows slot_size offset) rows slot_size offset =
      position_slots slots rows slot_size offset :=
  position_slots_idem_aux slots rows slot_size offset

/-- C7 witness: a concrete settled 2-column, 1-row grid. -/
theorem position_slots_idempotent_w :
    position_slots (position_slots [[symA], [symB]] 1 (100, 100) 10) 1 (100, 100) 10 =
      position_slots [[symA], [symB]] 1 (100, 100) 10 :=
  position_slots_idempotent [[symA], [symB]] 1 (100, 100) 10 (by
    intro col hcol
    rcases List.mem_cons.mp hcol with rfl | hcol
    · rfl
    · rcases List.mem_cons.mp hcol with rfl | hcol
      · rfl
      · cases hcol)

/-! ## Flip and shift facts -/

theorem flip_line_fst (line : List (Int × Int)) :
    (flip_line line).map Prod.fst = line.map Prod.fst := by
  unfold flip_line
  rw [List.map_map]
  rfl

theorem flip_line_ne_nil {line : List (Int × Int)} (hne : line ≠ []) :
    flip_line line ≠ [] := by
  unfold flip_line
  simpa using hne

theorem flip_line_bounds {line : List (Int × Int)} {M : Int} (hne : line ≠ [])
    (h : ∀ p ∈ line, 0 ≤ p.2 ∧ p.2 ≤ M) :
    ∀ p ∈ flip_line line, 0 ≤ p.2 ∧ p.2 ≤ M := by
  intro p hp
  unfold flip_line at hp
  rw [List.mem_map] at hp
  obtain ⟨q, hq, rfl⟩ := hp
  have h1 : q.2 ≤ line_max_y line := le_line_max_y hq
  have h2 : line_max_y line ≤ M := line_max_y_le hne (fun r hr => (h r hr).2)
  have h3 : 0 ≤ q.2 := (h q hq).1
  constructor <;> simp <;> omega

theorem line_max_y_flip {line : List (Int × Int)} (hne : line ≠ []) :
    line_max_y (flip_line line) = line_max_y line - line_min_y line := by
  apply le_antisymm
  · apply line_max_y_le (flip_line_ne_nil hne)
    intro p hp
    unfold flip_line at hp
    rw [List.mem_map] at hp
    obtain ⟨q, hq, rfl⟩ := hp
    have := line_min_y_le hq
    simp
    omega
  · obtain ⟨q, hq, hqm⟩ := line_min_y_mem hne
    have hmem : (q.1, q.2 * (-1) + line_max_y line) ∈ flip_line line := by
      unfold flip_line
      exact List.mem_map_of_mem _ hq
    have := le_line_max_y hmem
    simp at this
    omega

theorem flip_flip {line : List (Int × Int)} (hne : line ≠ []) :
    flip_line (flip_line line) =
      line.map (fun p => (p.1, p.2 - line_min_y line)) := by
  conv_lhs => rw [flip_line]
  rw [line_max_y_flip hne]
  unfold flip_line
  rw [List.map_map]
  apply List.map_congr_left
  intro p _
  simp
  ring

theorem shift_points_fst (points : List (Int × Int)) (s : Int) :
    (shift_points points (0, s)).map Prod.fst = points.map Prod.fst := by
  unfold shift_points add_xy
  rw [List.map_map]
  apply List.map_congr_left
  intro p _
  simp

theorem shift_points_y {points : List (Int × Int)} {M : Int}
    (h : ∀ p ∈ points, 0 ≤ p.2 ∧ p.2 ≤ M) (s : Int) (hs : 0 ≤ s) :
    ∀ p ∈ shift_points points (0, s), 0 ≤ p.2 ∧ p.2 ≤ M + s := by
  intro p hp
  unfold shift_points add_xy at hp
  rw [List.mem_map] at hp
  obtain ⟨q, hq, rfl⟩ := hp
  have := h q hq
  simp
  omega

theorem family_case {base : List (Int × Int)} {k columns : Nat} {M : Int} {rows : Nat}
    (hfst : base.map Prod.fst = (List.range columns).map (fun x : Nat => (x : Int)))
    (hy : ∀ p ∈ base, 0 ≤ p.2 ∧ p.2 ≤ M)
    (hk : ∀ y : Nat, y < k → M + (y : Int) ≤ (rows : Int) - 1) :
    ∀ line ∈ (List.range k).map (fun y : Nat => shift_points base (0, (y : Int))),
      line.map Prod.fst = (List.range columns).map (fun x : Nat => (x : Int)) ∧
      ∀ p ∈ line, 0 ≤ p.2 ∧ p.2 ≤ (rows : Int) - 1 := by
  intro line hl
  rw [List.mem_map] at hl
  obtain ⟨y, hyk, rfl⟩ := hl
  rw [List.mem_range] at hyk
  refine ⟨by rw [shift_points_fst, hfst], ?_⟩
  intro p hp
  have h1 := shift_points_y hy (y : Int) (by omega) p hp
  have h2 := hk y hyk
  omega

theorem base_ne_nil {base : List (Int × Int)} {columns : Nat} (hc : 1 ≤ columns)
    (hfst : base.map Prod.fst = (List.range columns).map (fun x : Nat => (x : Int))) :
    base ≠ [] := by
  intro hnil
  have := congrArg List.length hfst
  rw [hnil] at this
  simp at this
  omega

/-! ## Per-family base-line facts -/

theorem horizontal_line_fst (n : Nat) :
    (horizontal_line n).map Prod.fst = (List.range n).map (fun x : Nat => (x : Int)) := by
  unfold horizontal_line
  rw [List.map_map]
  rfl

theorem horizontal_line_y (n : Nat) : ∀ p ∈ horizontal_line n, 0 ≤ p.2 ∧ p.2 ≤ 0 := by
  intro p hp
  unfold horizontal_line at hp
  rw [List.mem_map] at hp
  obtain ⟨x, _, rfl⟩ := hp
  simp

theorem saw_line_fst (n : Nat) :
    (saw_line n).map Prod.fst = (List.range n).map (fun x : Nat => (x : Int)) := by
  unfold saw_line
  rw [List.map_map]
  rfl

theorem saw_line_y (n : Nat) : ∀ p ∈ saw_line n, 0 ≤ p.2 ∧ p.2 ≤ 1 := by
  intro p hp
  unfold saw_line at hp
  rw [List.mem_map] at hp
  obtain ⟨x, _, rfl⟩ := hp
  constructor <;> simp <;> omega

theorem middle_peak_line_fst (n : Nat) :
    (middle_peak_line n).map Prod.fst = (List.range n).map (fun x : Nat => (x : Int)) := by
  unfold middle_peak_line
  rw [List.map_map]
  apply List.map_congr_left
  intro x _
  by_cases h : x ∈ (if n % 2 = 0 then [n / 2, n / 2 - 1] else [n / 2]) <;> simp [h]

theorem middle_peak_line_y (n : Nat) : ∀ p ∈ middle_peak_line n, 0 ≤ p.2 ∧ p.2 ≤ 1 := by
  intro p hp
  unfold middle_peak_line at hp
  rw [List.mem_map] at hp
  obtain ⟨x, _, rfl⟩ := hp
  by_cases h : x ∈ (if n % 2 = 0 then [n / 2, n / 2 - 1] else [n / 2]) <;> simp [h]

theorem dip_line_fst (n : Nat) (hn : 1 ≤ n) :
    (dip_line n).map Prod.fst = (List.range n).map (fun x : Nat => (x : Int)) := by
  match n, hn with
  | 1, _ => decide
  | 2, _ => decide
  | (k + 3), _ =>
    have hform : dip_line (k + 3) =
        ([((0 : Int), (1 : Int))] ++
          (List.range' 1 (k + 1)).map (fun x : Nat => ((x : Int), 0))) ++
        [(((k + 3 : Nat) : Int) - 1, 1)] := by
      unfold dip_line
      rw [if_neg (by omega), if_pos (by omega)]
      have e : k + 3 - 2 = k + 1 := by omega
      rw [e]
    rw [hform]
    have hsplit : List.range (k + 3) =
        (List.range 1 ++ (List.range (k + 1)).map (fun x => 1 + x)) ++ [k + 2] := by
      rw [← List.range_add]
      rw [show 1 + (k + 1) = k + 2 from by omega, ← List.range_succ]
    rw [hsplit]
    have e2 : ((k + 3 : Nat) : Int) - 1 = ((k + 2 : Nat) : Int) := by push_cast; ring
    rw [e2]
    simp only [List.map_append, List.map_map, List.range'_eq_map_range,
      List.map_cons, List.map_nil, List.range_succ, List.range_zero]
    rfl

theorem dip_line_y (n : Nat) (hn : 1 ≤ n) : ∀ p ∈ dip_line n, 0 ≤ p.2 ∧ p.2 ≤ 1 := by
  match n, hn with
  | 1, _ => decide
  | 2, _ => decide
  | (k + 3), _ =>
    intro p hp
    unfold dip_line at hp
    rw [if_neg (by omega), if_pos (by omega)] at hp
    simp only [List.mem_append, List.mem_singleton, List.mem_map, List.mem_cons,
      List.not_mem_nil, or_false] at hp
    rcases hp with (rfl | ⟨x, _, rfl⟩) | rfl <;> simp

theorem triangle_line_odd (m : Nat) :
    triangle_line (2 * m + 1) =
      (List.range (m + 1)).map (fun i : Nat => ((i : Int), (i : Int))) ++
      (List.range m).map
        (fun x : Nat => (((m + 1 + x : Nat) : Int), ((m - x - 1 : Nat) : Int))) := by
  have hcond : ((2 * m + 1) % 2 = 0) = False := by
    simp
    omega
  unfold triangle_line
  simp only [hcond, if_false, Nat.sub_zero, List.length_map, List.length_range]
  have e1 : (2 * m + 1) / 2 + 1 = m + 1 := by omega
  rw [e1]
  have e2 : 2 * m + 1 - (m + 1) = m := by omega
  rw [e2]
  congr 1
  apply List.map_congr_left
  intro x hx
  rw [List.mem_range] at hx
  rw [getD_range_map _ _ (show m - x - 1 < m + 1 by omega)]

theorem triangle_line_even (m : Nat) (hm : 1 ≤ m) :
    triangle_line (2 * m) =
      ((List.range m).map (fun i : Nat => ((i : Int), (i : Int))) ++
        [(((m - 1 : Nat) : Int) + 1, ((m - 1 : Nat) : Int))]) ++
      (List.range (m - 1)).map
        (fun x : Nat => (((m + 1 + x : Nat) : Int), ((m - 1 - x - 1 : Nat) : Int))) := by
  have hcond : ((2 * m) % 2 = 0) = True := by
    simp
  unfold triangle_line
  simp only [hcond, if_true, List.length_map, List.length_range, List.length_append,
    List.length_cons, List.length_nil]
  have e1 : (2 * m - 1) / 2 + 1 = m := by omega
  rw [e1]
  rw [getD_range_map (fun i : Nat => ((i : Int), (i : Int))) ((0 : Int), (0 : Int))
    (show m - 1 < m by omega)]
  have e2 : 2 * m - (m + 0 + 1) = m - 1 := by omega
  rw [e2]
  congr 1
  apply List.map_congr_left
  intro x hx
  rw [List.mem_range] at hx
  rw [getD_append_left _ _ _ _ (by simp; omega)]
  rw [getD_range_map _ _ (show m - 1 - x - 1 < m by omega)]

theorem triangle_line_fst (n : Nat) (hn : 1 ≤ n) :
    (triangle_line n).map Prod.fst = (List.range n).map (fun x : Nat => (x : Int)) := by
  obtain ⟨m, hm | hm⟩ := Nat.even_or_odd' n
  · subst hm
    have hm1 : 1 ≤ m := by omega
    rw [triangle_line_even m hm1]
    have hsplit : List.range (2 * m) =
        (List.range m ++ [m]) ++ (List.range (m - 1)).map (fun x => m + 1 + x) := by
      rw [← List.range_succ, ← List.range_add]
      congr 1
      omega
    rw [hsplit]
    have epk : ((m - 1 : Nat) : Int) + 1 = (m : Int) := by omega
    simp only [List.map_append, List.map_map, List.map_cons, List.map_nil]
    rw [epk]
    rfl
  · subst hm
    rw [triangle_line_odd m]
    have hsplit : List.range (2 * m + 1) =
        List.range (m + 1) ++ (List.range m).map (fun x => m + 1 + x) := by
      rw [← List.range_add]
      congr 1
      omega
    rw [hsplit]
    simp only [List.map_append, List.map_map]
    rfl

theorem triangle_line_length (n : Nat) (hn : 1 ≤ n) : (triangle_line n).length = n := by
  have h := congrArg List.length (triangle_line_fst n hn)
  simpa using h

theorem trianglePeak_odd (m : Nat) : trianglePeak (2 * m + 1) = (m : Int) := by
  unfold trianglePeak
  rw [triangle_line_length _ (by omega)]
  have e : (2 * m + 1) / 2 = m := by omega
  rw [e, triangle_line_odd]
  rw [getD_append_left _ _ _ _ (by rw [List.length_map, List.length_range]; omega)]
  rw [getD_range_map _ _ (show m < m + 1 by omega)]

theorem trianglePeak_even (m : Nat) (hm : 1 ≤ m) :
    trianglePeak (2 * m) = ((m - 1 : Nat) : Int) := by
  unfold trianglePeak
  rw [triangle_line_length _ (by omega)]
  have e : (2 * m) / 2 = m := by omega
  rw [e, triangle_line_even m hm]
  rw [getD_append_left _ _ _ _
    (by simp only [List.length_append, List.length_map, List.length_range,
      List.length_cons, List.length_nil]; omega)]
  rw [getD_append_right _ _ _ _ (by rw [List.length_map, List.length_range])]
  simp

theorem triangle_line_y (n : Nat) (hn : 1 ≤ n) :
    ∀ p ∈ triangle_line n, 0 ≤ p.2 ∧ p.2 ≤ trianglePeak n := by
  obtain ⟨m, hm | hm⟩ := Nat.even_or_odd' n
  · subst hm
    have hm1 : 1 ≤ m := by omega
    rw [triangle_line_even m hm1, trianglePeak_even m hm1]
    intro p hp
    simp only [List.mem_append, List.mem_map, List.mem_range, List.mem_cons,
      List.not_mem_nil, or_false] at hp
    rcases hp with (⟨i, hi, rfl⟩ | rfl) | ⟨x, hx, rfl⟩ <;> constructor <;> simp <;> omega
  · subst hm
    rw [triangle_line_odd m, trianglePeak_odd m]
    intro p hp
    simp only [List.mem_append, List.mem_map, List.mem_range] at hp
    rcases hp with ⟨i, hi, rfl⟩ | ⟨x, hx, rfl⟩ <;> constructor <;> simp <;> omega

theorem generate_lines_props (rows columns : Nat) (hr : 1 ≤ rows) (hc : 1 ≤ columns) :
    ∀ fam ∈ generate_lines rows columns, ∀ orient ∈ fam, ∀ line ∈ orient,
      line.map Prod.fst = (List.range columns).map (fun x : Nat => (x : Int)) ∧
      ∀ p ∈ line, 0 ≤ p.2 ∧ p.2 ≤ (rows : Int) - 1 := by
  have htri := triangle_line_fst columns hc
  have htriy := triangle_line_y columns hc
  have hdip := dip_line_fst columns hc
  have hdipy := dip_line_y columns hc
  have hk1 : ∀ y : Nat, y < rows - 1 → (1 : Int) + (y : Int) ≤ (rows : Int) - 1 := by
    intro y hy
    omega
  have hky : ∀ y : Nat, y < ((rows : Int) - trianglePeak columns).toNat →
      trianglePeak columns + (y : Int) ≤ (rows : Int) - 1 := by
    intro y hy
    omega
  intro fam hfam
  simp only [generate_lines, List.mem_cons, List.not_mem_nil, or_false] at hfam
  rcases hfam with rfl | rfl | rfl | rfl | rfl
  · intro orient horient
    simp only [all_horizontal_lines, List.mem_cons, List.not_mem_nil, or_false] at horient
    subst horient
    intro line hline
    exact family_case (horizontal_line_fst columns) (horizontal_line_y columns)
      (fun y hy => by omega) line hline
  · intro orient horient
    simp only [all_triangle_lines, List.mem_cons, List.not_mem_nil, or_false] at horient
    rcases horient with rfl | rfl
    · intro line hline
      exact family_case htri htriy hky line hline
    · intro line hline
      exact family_case (by rw [flip_line_fst]; exact htri)
        (flip_line_bounds (base_ne_nil hc htri) htriy) hky line hline
  · intro orient horient
    simp only [all_dip_lines, List.mem_cons, List.not_mem_nil, or_false] at horient
    rcases horient with rfl | rfl
    · intro line hline
      exact family_case hdip hdipy hk1 line hline
    · intro line hline
      exact family_case (by rw [flip_line_fst]; exact hdip)
        (flip_line_bounds (base_ne_nil hc hdip) hdipy) hk1 line hline
  · intro orient horient
    simp only [all_saw_lines, List.mem_cons, List.not_mem_nil, or_false] at horient
    rcases horient with rfl | rfl
    · intro line hline
      exact family_case (saw_line_fst columns) (saw_line_y columns) hk1 line hline
    · intro line hline
      exact family_case (by rw [flip_line_fst]; exact saw_line_fst columns)
        (flip_line_bounds (base_ne_nil hc (saw_line_fst columns)) (saw_line_y columns))
        hk1 line hline
  · intro orient horient
    simp only [all_middle_peak_lines, List.mem_cons, List.not_mem_nil, or_false] at horient
    rcases horient with rfl | rfl
    · intro line hline
      exact family_case (middle_peak_line_fst columns) (middle_peak_line_y columns)
        hk1 line hline
    · intro line hline
      exact family_case (by rw [flip_line_fst]; exact middle_peak_line_fst columns)
        (flip_line_bounds (base_ne_nil hc (middle_peak_line_fst columns))
          (middle_peak_line_y columns))
        hk1 line hline

/-- C3: for every `rows ≥ 1` and `columns ≥ 1`, every payline produced by
`generate_lines` — all five families, both orientations, all vertical
shifts — has exactly `columns` coordinate pairs whose x components are
`0, 1, …, columns-1` in order and whose y components lie in `[0, rows-1]`. -/
theorem generate_lines_payline_shape (rows columns : Nat) (hr : 1 ≤ rows) (hc : 1 ≤ columns) :
    ∀ fam ∈ generate_lines rows columns, ∀ orient ∈ fam, ∀ line ∈ orient,
      line.map Prod.fst = (List.range columns).map (fun x : Nat => (x : Int)) ∧
      ∀ p ∈ line, 0 ≤ p.2 ∧ p.2 ≤ (rows : Int) - 1 :=
  generate_lines_props rows columns hr hc

/-- C3 witness: the first horizontal payline of the 2×3 grid. -/
theorem generate_lines_payline_shape_w :
    ([((0 : Int), (0 : Int)), (1, 0), (2, 0)]).map Prod.fst =
      (List.range 3).map (fun x : Nat => (x : Int)) ∧
    ∀ p ∈ [((0 : Int), (0 : Int)), (1, 0), (2, 0)], 0 ≤ p.2 ∧ p.2 ≤ ((2 : Nat) : Int) - 1 :=
  generate_lines_payline_shape 2 3 (by omega) (by omega)
    [[[(0, 0), (1, 0), (2, 0)], [(0, 1), (1, 1), (2, 1)]]] (by decide)
    [[(0, 0), (1, 0), (2, 0)], [(0, 1), (1, 1), (2, 1)]] (by decide)
    [(0, 0), (1, 0), (2, 0)] (by decide)

/-- C4 counterexample: the shifted horizontal payline `[(0, 1)]` of the 2×1
grid is in the generated line set, but flipping it twice yields `[(0, 0)]`,
not the original line — so `mirror(mirror(line)) == line` fails on generated
lines that do not touch row 0. -/
theorem mirror_involution_cx :
    [((0 : Int), (1 : Int))] ∈ ((generate_lines 2 1).getD 0 []).getD 0 [] ∧
    flip_line (flip_line [((0 : Int), (1 : Int))]) ≠ [((0 : Int), (1 : Int))] := by
  decide

/-- C4 (amended): for every generated payline, flipping twice yields the
line translated down by its minimal y-coordinate; in particular
`mirror(mirror(line)) == line` holds exactly for the lines whose minimal
y-coordinate is 0 (the vertically unshifted ones). -/
theorem mirror_involution_amended (rows columns : Nat) (hr : 1 ≤ rows) (hc : 1 ≤ columns) :
    ∀ fam ∈ generate_lines rows columns, ∀ orient ∈ fam, ∀ line ∈ orient,
      flip_line (flip_line line) = shift_points line (0, -line_min_y line) ∧
      (line_min_y line = 0 → flip_line (flip_line line) = line) := by
  intro fam hfam orient horient line hline
  have hprops := generate_lines_props rows columns hr hc fam hfam orient horient line hline
  have hne : line ≠ [] := base_ne_nil hc hprops.1
  have h1 : flip_line (flip_line line) =
      line.map (fun p => (p.1, p.2 - line_min_y line)) := flip_flip hne
  constructor
  · rw [h1]
    unfold shift_points add_xy
    apply List.map_congr_left
    intro p _
    simp [sub_eq_add_neg]
  · intro h0
    rw [h1, h0]
    simp

/-- C4 witness: the unshifted horizontal payline of the 2×1 grid, where the
minimal y is 0 and the mirror involution does hold. -/
theorem mirror_involution_amended_w :
    flip_line (flip_line [((0 : Int), (0 : Int))]) =
      shift_points [((0 : Int), (0 : Int))] (0, -line_min_y [((0 : Int), (0 : Int))]) ∧
    (line_min_y [((0 : Int), (0 : Int))] = 0 →
      flip_line (flip_line [((0 : Int), (0 : Int))]) = [((0 : Int), (0 : Int))]) :=
  mirror_involution_amended 2 1 (by omega) (by omega)
    [[[(0, 0)], [(0, 1)]]] (by decide)
    [[(0, 0)], [(0, 1)]] (by decide)
    [(0, 0)] (by decide)

/-- C10 counterexample: on the single-column input `[[0, 1]]` — whose longest
column (length 2) exceeds the column count (1) — `flip_2d` does not return a
value at all: the write target `new_ls[item]` raises an uncaught
`IndexError`, contradicting the claim that every input yields `len(input)`
output sublists with the transposed entries. -/
theorem flip_2d_cx : flip_2d ([[0, 1]] : List (List Nat)) = none := by decide

/-- C10 (amended): when the input is non-empty and its longest column is no
longer than its column count, `flip_2d` returns exactly `len(input)`
sublists — one per input column, not one per row: row `i` below the longest
column length holds `input[j][i]` per column `j` (`None` where a column is
too short), and the remaining rows are left as empty lists.  Otherwise
(empty input, or a column longer than the column count) the function raises
instead of returning. -/
theorem flip_2d_amended {α : Type} (ls : List (List α)) (hne : ls ≠ [])
    (hb : biggestLen ls ≤ ls.length) :
    ∃ r : List (List (Option α)), flip_2d ls = some r ∧
      r.length = ls.length ∧
      (∀ i : Nat, i < biggestLen ls →
        r.getD i [] = (List.range ls.length).map (fun j => (ls.getD j [])[i]?)) ∧
      (∀ i : Nat, biggestLen ls ≤ i → i < ls.length → r.getD i [] = []) := by
  obtain ⟨a, t, rfl⟩ := List.exists_cons_of_ne_nil hne
  refine ⟨((List.range (biggestLen (a :: t))).map (fun item =>
      (List.range (a :: t).length).map (fun sub_list => ((a :: t).getD sub_list [])[item]?))) ++
    (List.range ((a :: t).length - biggestLen (a :: t))).map (fun _ => []),
    ?_, ?_, ?_, ?_⟩
  · simp only [flip_2d]
    rw [if_neg (not_lt.mpr hb)]
  · simp only [List.length_append, List.length_map, List.length_range]
    omega
  · intro i hi
    rw [getD_append_left _ _ _ _ (by rw [List.length_map, List.length_range]; omega)]
    exact getD_range_map _ _ hi
  · intro i h1 h2
    rw [getD_append_right _ _ _ _ (by rw [List.length_map, List.length_range]; omega)]
    rw [List.length_map, List.length_range]
    exact getD_range_map (fun _ => ([] : List (Option α))) _ (by omega)

/-- C10 witness: the 2-column input `[[0, 1], [2]]`, where the longest
column has length 2 = column count. -/
theorem flip_2d_amended_w :
    ∃ r : List (List (Option Nat)), flip_2d ([[0, 1], [2]] : List (List Nat)) = some r ∧
      r.length = ([[0, 1], [2]] : List (List Nat)).length ∧
      (∀ i : Nat, i < biggestLen ([[0, 1], [2]] : List (List Nat)) →
        r.getD i [] = (List.range ([[0, 1], [2]] : List (List Nat)).length).map
          (fun j => (([[0, 1], [2]] : List (List Nat)).getD j [])[i]?)) ∧
      (∀ i : Nat, biggestLen ([[0, 1], [2]] : List (List Nat)) ≤ i →
        i < ([[0, 1], [2]] : List (List Nat)).length → r.getD i [] = []) :=
  flip_2d_amended ([[0, 1], [2]] : List (List Nat)) (by decide) (by decide)

/-- C1 counterexample: with balance 0 and the 5-line cost 26, the spin
handler still fires — the state machine moves to `Rolling` (`status = 1`)
and the single column grows from 1 to 2 symbols — contradicting the claim
that an insufficient balance silently blocks the spin with no state change. -/
theorem spin_insufficient_balance_cx :
    (0 : Int) < costs 5 ∧
    (spin_step 0 (costs 5) [[symA]] [[symB]]).2.1 = 1 ∧
    ((spin_step 0 (costs 5) [[symA]] [[symB]]).2.2.getD 0 []).length = 2 := by
  refine ⟨by decide, rfl, ?_⟩
  rfl

/-- C1 (amended): when a spin command arrives in the Idle state with the
balance below the cost, only the deduction is skipped: the balance stays
unchanged, but fresh symbols are still prepended to every column and the
state machine still transitions to Rolling (`status = 1`). -/
theorem spin_insufficient_balance_amended (total_score cost : Int)
    (rolls new_rolls : List (List SlotSym)) (h : total_score < cost) :
    spin_step total_score cost rolls new_rolls =
      (total_score, 1,
        position_slots (update_slots rolls new_rolls) ROWS SYMBOL_SIZE SYMBOL_OFFSET) := by
  unfold spin_step
  rw [if_neg (not_le.mpr h)]

/-- C1 witness: balance 0 against cost 26. -/
theorem spin_insufficient_balance_amended_w :
    spin_step 0 (costs 5) [[symA]] [[symB]] =
      (0, 1, position_slots (update_slots [[symA]] [[symB]]) ROWS SYMBOL_SIZE SYMBOL_OFFSET) :=
  spin_insufficient_balance_amended 0 (costs 5) [[symA]] [[symB]] (by decide)

/-- C2 witness: the equality characterization at the concrete pair
(ordinary `symA`, wildcard `symW`). -/
theorem symbol_eq_characterization_w :
    pyEq symA symW = true ↔
      (symA.wild = false ∧ symW.wild = false ∧ symA.sym_id = symW.sym_id) ∨
      symA.wild ≠ symW.wild ∨
      (symA.wild = true ∧ symW.wild = true ∧ symA.sym_id = symW.sym_id) :=
  symbol_eq_characterization symA symW

/-- C5 witness: the default parameters used by `load_images`
(`amount = 5`, `wild_val = 5`, `default_val = 8`, `max_val = 30`,
`big_vals = 3`). -/
theorem generate_values_spec_w :
    ∃ values : List Int,
      generate_values 5 5 8 30 3 = some (5, values) ∧
      values.length = 5 ∧
      (∀ i : Nat, i < (min (3 : Int) ((5 : Nat) : Int)).toNat →
        values.getD i 0 = 30 - 5 * (i : Int)) ∧
      (∀ i : Nat, (min (3 : Int) ((5 : Nat) : Int)).toNat ≤ i → i < 5 →
        values.getD i 0 = 8) :=
  generate_values_spec 5 5 8 30 3

/-- C8 witness: the trim specification at a concrete one-column grid and
bound 0. -/
theorem del_out_of_bounds_spec_w :
    del_out_of_bounds [[symA]] 0 =
      [[symA]].map (fun column => column.filter (fun s => decide (s.y ≤ 0))) ∧
    ∀ i : Nat,
      List.Sublist ((del_out_of_bounds [[symA]] 0).getD i []) ([[symA]].getD i []) ∧
      ∀ s : SlotSym, s ∈ (del_out_of_bounds [[symA]] 0).getD i [] ↔
        s ∈ [[symA]].getD i [] ∧ s.y ≤ 0 :=
  del_out_of_bounds_spec [[symA]] 0
